import Mathlib


/-!
Verification development for the reader/writer lock core in Db/dblock.c of the
wgandalf memory database (file dblock.c).

The source implements two build-time algorithms:
* the simple reader-preference lock (build without QUEUED_LOCKS), acting on a
  single shared machine word (the sync word stored at offset locks.global_lock);
* the queued FIFO lock (build with QUEUED_LOCKS), acting on a lock-node arena
  with a refcount-protected freelist.

Machine integers (the C type gint) are modelled as unbounded Int: all the
arithmetic the code performs on lock words stays far from the word-size bounds
under the invariants proved here, and signed overflow is undefined behaviour in
the C source anyway, so the unbounded model captures exactly the defined
behaviour.  Bitwise operations use Int.land / Int.lor, which agree with the
twos-complement semantics of the hardware instructions.  Node offsets are
modelled as Nat (the C code only ever stores nonnegative offsets in them, with
0 serving as the null offset).

Sequential semantics: each operation is modelled as a pure function from the
shared segment state to (result, new state).  A spin loop whose exit condition
can only be changed by another thread diverges when run in isolation; such
operations return Option, with none meaning the call would spin forever in a
single-threaded run.  The interleaved behaviour of the simple-mode lock is
modelled separately as a labelled transition system (namespace SimpleTS).
-/

/-- WAFLAG, the writer-active flag: bit 0 of the simple-mode sync word. -/
def WAFLAG : Int := 0x1


/-- RC_INCR, the increment step for the simple-mode reader count. -/
def RC_INCR : Int := 0x2


/-- LOCKQ_READ, the class tag of a reader queue node. -/
def LOCKQ_READ : Int := 0x02


/-- LOCKQ_WRITE, the class tag of a writer queue node. -/
def LOCKQ_WRITE : Int := 0x04


/-- Modelled from the spec: SYN_VAR_PADDING, the byte size of one
cache-line-padded lock queue node.  The constant is defined in dballoc.h,
which is not part of the sources under verification; the spec only says the
nodes are cache-line padded.  None of the claims depend on its value, only on
it being positive; we fix the common cache-line size. -/
def SYN_VAR_PADDING : Nat := 64


/- ---- atomic helper semantics ----
The C helpers operate atomically on a shared cell; sequentially each is a pure
function of the cell value.  fetch-style helpers return (previous value, new
value). -/

/-- Sequential semantics of atomic_increment(ptr, incr). -/
def atomic_increment (v incr : Int) : Int := v + incr


/-- Sequential semantics of atomic_and(ptr, val). -/
def atomic_and (v m : Int) : Int := Int.land v m


/-- Sequential semantics of atomic_or(ptr, val). -/
def atomic_or (v m : Int) : Int := Int.lor v m


/-- Sequential semantics of fetch_and_add(ptr, incr): (old, new). -/
def fetch_and_add (v incr : Int) : Int × Int := (v, v + incr)


/-- Sequential semantics of fetch_and_store(ptr, val): (old, new). -/
def fetch_and_store {α : Type} (v new : α) : α × α := (v, new)


/-- Sequential semantics of compare_and_swap(ptr, old, new):
(success flag, new cell value). -/
def compare_and_swap {α : Type} [DecidableEq α] (v old new : α) : Bool × α :=
  if v = old then (true, new) else (false, v)


/- ==== Simple mode (build without QUEUED_LOCKS) ==== -/

/-- Shared state visible to the simple-mode lock: the handle validity (the
result of the host-provided dbcheck predicate on the passed pointer) and the
value of the sync word, the gint cell at offset locks.global_lock of the
database memory segment header. -/
structure DbS where
  valid : Bool
  sync_word : Int
deriving DecidableEq, Repr


/-- Sequential model of wg_start_write (simple mode).  The first CAS attempt
and every spin iteration test the same unchanging word in a single-threaded
run, so the call either succeeds at once (sync word 0) or spins forever
(modelled as none). -/
def wg_start_write (db : DbS) : Option (Int × DbS) :=
  if !db.valid then some (0, db) else
  if db.sync_word = 0 then some (1, { db with sync_word := WAFLAG }) else
  none


/-- Sequential model of wg_end_write (simple mode): atomic_and(gl, ~WAFLAG),
with ~WAFLAG = -2 in twos complement; the lock token argument is never read in
this mode. -/
def wg_end_write (db : DbS) (lock : Int) : Int × DbS :=
  if !db.valid then (0, db) else
  (1, { db with sync_word := atomic_and db.sync_word (-2) })


/-- Sequential model of wg_start_read (simple mode): fetch_and_add(gl, RC_INCR)
with the fetched value discarded, then a fresh read of the word testing WAFLAG;
sequentially the fresh read returns the just-incremented value.  If WAFLAG is
set the call spins forever in a single-threaded run (none). -/
def wg_start_read (db : DbS) : Option (Int × DbS) :=
  if !db.valid then some (0, db) else
  let s1 := (fetch_and_add db.sync_word RC_INCR).2
  if Int.land s1 WAFLAG = 0 then some (1, { db with sync_word := s1 }) else
  none


/-- Sequential model of wg_end_read (simple mode): fetch_and_add(gl, -RC_INCR);
the lock token argument is never read in this mode. -/
def wg_end_read (db : DbS) (lock : Int) : Int × DbS :=
  if !db.valid then (0, db) else
  (1, { db with sync_word := (fetch_and_add db.sync_word (-RC_INCR)).2 })

namespace SimpleTS


/-- Program counter of one thread of the simple-mode lock protocol.
idle: outside any lock operation.  wspin / wcas: inside the spin loop of
wg_start_write, before / after having read the sync word as zero.  wcs:
between wg_start_write returning and the paired wg_end_write call.  rchk:
after the fetch_and_add of wg_start_read, before testing WAFLAG.  rwait:
spinning in wg_start_read on WAFLAG.  rcs: between wg_start_read returning
and the paired wg_end_read call. -/
inductive Pc where
  | idle
  | wspin
  | wcas
  | wcs
  | rchk
  | rwait
  | rcs
deriving DecidableEq, Repr


/-- Configuration: value of the shared sync word and the pc of each thread. -/
structure Cfg (n : Nat) where
  sync_word : Int
  tpc : Fin n → Pc


/-- Labels naming which atomic instruction of which source function fires. -/
inductive Act where
  | startWriteCas
  | writeSpinRead
  | writeSpinCas
  | endWrite
  | readIncr
  | readCheck
  | readSpin
  | endRead
deriving DecidableEq, Repr


/-- One atomic instruction of thread t.  Each constructor mirrors one atomic
access of the simple-mode source code. -/
inductive Step {n : Nat} : Act → Fin n → Cfg n → Cfg n → Prop where
  | start_write_ok {t : Fin n} {c : Cfg n} :
      c.tpc t = Pc.idle → c.sync_word = 0 →
      Step Act.startWriteCas t c ⟨WAFLAG, Function.update c.tpc t Pc.wcs⟩
  | start_write_fail {t : Fin n} {c : Cfg n} :
      c.tpc t = Pc.idle → c.sync_word ≠ 0 →
      Step Act.startWriteCas t c ⟨c.sync_word, Function.update c.tpc t Pc.wspin⟩
  | write_spin_read_zero {t : Fin n} {c : Cfg n} :
      c.tpc t = Pc.wspin → c.sync_word = 0 →
      Step Act.writeSpinRead t c ⟨c.sync_word, Function.update c.tpc t Pc.wcas⟩
  | write_spin_read_nonzero {t : Fin n} {c : Cfg n} :
      c.tpc t = Pc.wspin → c.sync_word ≠ 0 →
      Step Act.writeSpinRead t c c
  | write_spin_cas_ok {t : Fin n} {c : Cfg n} :
      c.tpc t = Pc.wcas → c.sync_word = 0 →
      Step Act.writeSpinCas t c ⟨WAFLAG, Function.update c.tpc t Pc.wcs⟩
  | write_spin_cas_fail {t : Fin n} {c : Cfg n} :
      c.tpc t = Pc.wcas → c.sync_word ≠ 0 →
      Step Act.writeSpinCas t c ⟨c.sync_word, Function.update c.tpc t Pc.wspin⟩
  | end_write_step {t : Fin n} {c : Cfg n} :
      c.tpc t = Pc.wcs →
      Step Act.endWrite t c
        ⟨atomic_and c.sync_word (-2), Function.update c.tpc t Pc.idle⟩
  | read_incr {t : Fin n} {c : Cfg n} :
      c.tpc t = Pc.idle →
      Step Act.readIncr t c
        ⟨(fetch_and_add c.sync_word RC_INCR).2, Function.update c.tpc t Pc.rchk⟩
  | read_check_clear {t : Fin n} {c : Cfg n} :
      c.tpc t = Pc.rchk → Int.land c.sync_word WAFLAG = 0 →
      Step Act.readCheck t c ⟨c.sync_word, Function.update c.tpc t Pc.rcs⟩
  | read_check_set {t : Fin n} {c : Cfg n} :
      c.tpc t = Pc.rchk → Int.land c.sync_word WAFLAG ≠ 0 →
      Step Act.readCheck t c ⟨c.sync_word, Function.update c.tpc t Pc.rwait⟩
  | read_spin_clear {t : Fin n} {c : Cfg n} :
      c.tpc t = Pc.rwait → Int.land c.sync_word WAFLAG = 0 →
      Step Act.readSpin t c ⟨c.sync_word, Function.update c.tpc t Pc.rcs⟩
  | read_spin_set {t : Fin n} {c : Cfg n} :
      c.tpc t = Pc.rwait → Int.land c.sync_word WAFLAG ≠ 0 →
      Step Act.readSpin t c c
  | end_read_step {t : Fin n} {c : Cfg n} :
      c.tpc t = Pc.rcs →
      Step Act.endRead t c
        ⟨(fetch_and_add c.sync_word (-RC_INCR)).2, Function.update c.tpc t Pc.idle⟩


/-- Interleaved executions: reflexive-transitive closure of Step under any
schedule of threads and instructions. -/
inductive Reach {n : Nat} : Cfg n → Cfg n → Prop where
  | refl (c : Cfg n) : Reach c c
  | tail {c c1 c2 : Cfg n} {a : Act} {t : Fin n} :
      Reach c c1 → Step a t c1 c2 → Reach c c2


/-- Initial configuration: sync word zero, every thread idle. -/
def init (n : Nat) : Cfg n := ⟨0, fun _ => Pc.idle⟩


/-- Number of threads whose pc satisfies p. -/
def cnt {n : Nat} (f : Fin n → Pc) (p : Pc → Bool) : Nat :=
  (Finset.univ.filter fun t => p (f t) = true).card


/-- Thread t holds the write lock. -/
def isW : Pc → Bool := fun p => match p with
  | Pc.wcs => true
  | _ => false


/-- Thread t has performed the reader-count increment of wg_start_read and not
yet the decrement of wg_end_read. -/
def isR : Pc → Bool := fun p => match p with
  | Pc.rchk => true
  | Pc.rwait => true
  | Pc.rcs => true
  | _ => false


/-- Thread t is inside the read critical section. -/
def isRcs : Pc → Bool := fun p => match p with
  | Pc.rcs => true
  | _ => false


/-- Inductive invariant of the simple-mode lock: the sync word is exactly
(writers in CS) + 2 * (readers holding an increment), there is at most one
writer in CS, and no reader is in its CS while a writer is. -/
def Inv {n : Nat} (c : Cfg n) : Prop :=
  c.sync_word = (cnt c.tpc isW : Int) + 2 * (cnt c.tpc isR : Int)
    ∧ cnt c.tpc isW ≤ 1
    ∧ (1 ≤ cnt c.tpc isW → cnt c.tpc isRcs = 0)


/-- Safety property of the simple-mode lock: at most one thread holds the
write lock, and none does while any thread is inside a read critical
section. -/
def MutEx {n : Nat} (c : Cfg n) : Prop :=
  cnt c.tpc isW ≤ 1 ∧ (1 ≤ cnt c.tpc isRcs → cnt c.tpc isW = 0)

end SimpleTS


/- ==== Queued mode (build with QUEUED_LOCKS) ==== -/

/-- One lock_queue_node of the arena.  The C field named class (a reserved
word in Lean) is called cls here. -/
structure lock_queue_node where
  cls : Int
  state : Int
  next : Nat
  next_cell : Nat
  refcount : Int
deriving DecidableEq, Repr


/-- The locks sub-header of the database memory segment header, together with
the node arena.  The arena is modelled as a map from byte offset to node
content; the code only ever addresses nodes at the offsets handed out by
alloc_lock / init_lock_queue.  Offsets are Nat with 0 the null offset. -/
structure db_locks where
  tail : Nat
  next_writer : Nat
  reader_count : Int
  freelist : Nat
  storage : Nat
  max_nodes : Nat
  nodes : Nat → lock_queue_node


/-- A database handle for the queued build: validity of the handle (result of
dbcheck) plus the shared lock state. -/
structure DbQ where
  valid : Bool
  locks : db_locks


/-- Update the node at offset o by f, leaving the rest of the arena alone. -/
def setNode (lk : db_locks) (o : Nat) (f : lock_queue_node → lock_queue_node) :
    db_locks :=
  { lk with nodes := Function.update lk.nodes o (f (lk.nodes o)) }


/-- The loop body of init_lock_queue: starting at offset base, initialize m
cells, each getting refcount 1 and next_cell pointing SYN_VAR_PADDING bytes
further. -/
def init_cells (base : Nat) : Nat → db_locks → db_locks
  | 0, lk => lk
  | m + 1, lk =>
      init_cells (base + SYN_VAR_PADDING) m
        (setNode lk base fun nd =>
          { nd with refcount := 1, next_cell := base + SYN_VAR_PADDING })


/-- Model of init_lock_queue.  Returns -1 without touching shared state on an
invalid handle; otherwise initializes the arena cells, null-terminates the
last cell and points freelist at the first cell.  (With max_nodes = 0 the C
code writes through an uninitialized pointer - undefined behaviour - so that
case is modelled as skipping the final write; every claim assumes
max_nodes ≥ 1.) -/
def init_lock_queue (db : DbQ) : Int × DbQ :=
  if !db.valid then (-1, db) else
  let lk := db.locks
  let lk1 := init_cells lk.storage lk.max_nodes lk
  let lk2 :=
    if lk.max_nodes = 0 then lk1 else
    setNode lk1 (lk.storage + (lk.max_nodes - 1) * SYN_VAR_PADDING)
      fun nd => { nd with next_cell := 0 }
  (0, { db with locks := { lk2 with freelist := lk2.storage } })


/-- The push loop of free_lock (the do/while CAS loop), with fuel.  In a
sequential run the CAS always succeeds on the first pass since the compare
value was read in the same iteration with no intervening write. -/
def free_lock_push (node : Nat) : Nat → db_locks → Option db_locks
  | 0, _ => none
  | fuel + 1, lk =>
      let t := lk.freelist
      let lk1 := setNode lk node fun nd => { nd with next_cell := t }
      let r := compare_and_swap lk1.freelist t node
      if r.1 then some { lk1 with freelist := r.2 }
      else free_lock_push node fuel lk1


/-- Model of free_lock: drop one reference (refcount - 2); if the count hits
zero, claim the cell with cas(refcount, 0, 1) and push it onto the freelist.
The commented-out recursive free of next_cell in the source is absent here as
in the source. -/
def free_lock (lk : db_locks) (node : Nat) : Option db_locks :=
  let lk1 := setNode lk node fun nd =>
    { nd with refcount := (fetch_and_add nd.refcount (-2)).2 }
  let r := compare_and_swap (lk1.nodes node).refcount 0 1
  if r.1 then
    free_lock_push node 1 (setNode lk1 node fun nd => { nd with refcount := r.2 })
  else some lk1


/-- The retry loop of alloc_lock, with fuel.  Fidelity note: on CAS failure
the code frees its speculative reference and retries; sequentially the CAS
always succeeds, so one unit of fuel suffices. -/
def alloc_lock_go : Nat → db_locks → Option (Nat × db_locks)
  | 0, _ => none
  | fuel + 1, lk =>
      let t := lk.freelist
      if t = 0 then some (0, lk) else
      let lk1 := setNode lk t fun nd =>
        { nd with refcount := (fetch_and_add nd.refcount 2).2 }
      let r := compare_and_swap lk1.freelist t (lk1.nodes t).next_cell
      if r.1 then
        some (t, setNode { lk1 with freelist := r.2 } t fun nd =>
          { nd with refcount := (fetch_and_add nd.refcount (-1)).2 })
      else
        match free_lock lk1 t with
        | none => none
        | some lk2 => alloc_lock_go fuel lk2


/-- Model of alloc_lock: lock-free freelist pop protected by refcounts.
Returns 0 exactly on observing an empty freelist. -/
def alloc_lock (lk : db_locks) : Option (Nat × db_locks) := alloc_lock_go 1 lk


/-- The rd_lock_cont tail of wg_start_read: after becoming unblocked, a reader
whose state carries the LOCKQ_READ successor hint waits for the successor
link, increments the reader count on behalf of the successor and unblocks it. -/
def rd_lock_cont (db : DbQ) (lk : db_locks) (lock : Nat) : Option (Nat × DbQ) :=
  if Int.land (lk.nodes lock).state LOCKQ_READ ≠ 0 then
    if (lk.nodes lock).next = 0 then none else
    let lk1 := { lk with reader_count := atomic_increment lk.reader_count 1 }
    let nxt := (lk1.nodes lock).next
    let lk2 := setNode lk1 nxt fun nd => { nd with state := atomic_and nd.state (-2) }
    some (lock, { db with locks := lk2 })
  else some (lock, { db with locks := lk })


/-- Model of wg_start_read in the queued build (sequential semantics; none
means the call would spin forever in a single-threaded run). -/
def wg_start_read_queued (db : DbQ) : Option (Nat × DbQ) :=
  if !db.valid then some (0, db) else
  match alloc_lock db.locks with
  | none => none
  | some (lock, lk0) =>
    if lock = 0 then some (0, { db with locks := lk0 }) else
    let lk1 := setNode lk0 lock fun nd =>
      { nd with cls := LOCKQ_READ, next := 0, state := 1 }
    let p := fetch_and_store lk1.tail lock
    let lk2 := { lk1 with tail := p.2 }
    if p.1 = 0 then
      let lk3 := { lk2 with reader_count := atomic_increment lk2.reader_count 1 }
      let lk4 := setNode lk3 lock fun nd => { nd with state := atomic_and nd.state (-2) }
      rd_lock_cont db lk4 lock
    else
      let prev := p.1
      if Int.land (lk2.nodes prev).cls LOCKQ_WRITE ≠ 0 then
        let lk3 := setNode lk2 prev fun nd => { nd with next := lock }
        if Int.land (lk3.nodes lock).state 1 ≠ 0 then none
        else rd_lock_cont db lk3 lock
      else
        let r := compare_and_swap (lk2.nodes prev).state 1 (Int.lor 1 LOCKQ_READ)
        if r.1 then
          let lk3 := setNode lk2 prev fun nd => { nd with state := r.2 }
          let lk4 := setNode lk3 prev fun nd => { nd with next := lock }
          if Int.land (lk4.nodes lock).state 1 ≠ 0 then none
          else rd_lock_cont db lk4 lock
        else
          let lk3 := { lk2 with reader_count := atomic_increment lk2.reader_count 1 }
          let lk4 := setNode lk3 prev fun nd => { nd with next := lock }
          let lk5 := setNode lk4 lock fun nd => { nd with state := atomic_and nd.state (-2) }
          rd_lock_cont db lk5 lock


/-- Model of wg_start_write in the queued build (sequential semantics). -/
def wg_start_write_queued (db : DbQ) : Option (Nat × DbQ) :=
  if !db.valid then some (0, db) else
  match alloc_lock db.locks with
  | none => none
  | some (lock, lk0) =>
    if lock = 0 then some (0, { db with locks := lk0 }) else
    let lk1 := setNode lk0 lock fun nd =>
      { nd with cls := LOCKQ_WRITE, next := 0, state := 1 }
    let p := fetch_and_store lk1.tail lock
    let lk2 := { lk1 with tail := p.2 }
    let lk3 :=
      if p.1 = 0 then
        let lkA := { lk2 with next_writer := lock }
        if lkA.reader_count = 0 then
          let w := fetch_and_store lkA.next_writer 0
          let lkB := { lkA with next_writer := w.2 }
          if w.1 = lock then
            setNode lkB lock fun nd => { nd with state := atomic_and nd.state (-2) }
          else lkB
        else lkA
      else
        let lkA := setNode lk2 p.1 fun nd =>
          { nd with state := atomic_or nd.state LOCKQ_WRITE }
        setNode lkA p.1 fun nd => { nd with next := lock }
    if Int.land (lk3.nodes lock).state 1 ≠ 0 then none
    else some (lock, { db with locks := lk3 })


/-- Successor handling of wg_end_write: wait for the successor link, admit a
reader successor into the reader cohort, clear the blocked bit of the successor. -/
def end_write_successor (lk : db_locks) (lock : Nat) : Option db_locks :=
  if (lk.nodes lock).next = 0 then none else
  let nxt := (lk.nodes lock).next
  let lk1 :=
    if Int.land (lk.nodes nxt).cls LOCKQ_READ ≠ 0 then
      { lk with reader_count := atomic_increment lk.reader_count 1 }
    else lk
  some (setNode lk1 nxt fun nd => { nd with state := atomic_and nd.state (-2) })


/-- Model of wg_end_write in the queued build. -/
def wg_end_write_queued (db : DbQ) (lock : Nat) : Option (Int × DbQ) :=
  if !db.valid then some (0, db) else
  let lk := db.locks
  let step1 : Option db_locks :=
    if (lk.nodes lock).next ≠ 0 then end_write_successor lk lock
    else
      let r := compare_and_swap lk.tail lock 0
      let lk1 := { lk with tail := r.2 }
      if r.1 then some lk1 else end_write_successor lk1 lock
  match step1 with
  | none => none
  | some lk2 =>
    match free_lock lk2 lock with
    | none => none
    | some lk3 => some (1, { db with locks := lk3 })


/-- Successor bookkeeping of wg_end_read (the first if of the source): on a
successor having appeared, wait for its link and, if the successor is a
writer, publish it as next_writer. -/
def end_read_step1 (lk : db_locks) (lock : Nat) : Option db_locks :=
  if (lk.nodes lock).next ≠ 0 then
    some (if Int.land (lk.nodes lock).state LOCKQ_WRITE ≠ 0 then
      { lk with next_writer := (lk.nodes lock).next } else lk)
  else
    let r := compare_and_swap lk.tail lock 0
    let lk1 := { lk with tail := r.2 }
    if r.1 then some lk1
    else if (lk1.nodes lock).next = 0 then none
    else some (if Int.land (lk1.nodes lock).state LOCKQ_WRITE ≠ 0 then
      { lk1 with next_writer := (lk1.nodes lock).next } else lk1)


/-- The last-reader handoff of wg_end_read (second if of the source):
decrement reader_count with fetch_and_add(-1); exactly when the fetched value
is 1, exchange next_writer with 0 and, if a writer was queued there, clear
its blocked bit. -/
def end_read_handoff (lk : db_locks) : db_locks :=
  let r := fetch_and_add lk.reader_count (-1)
  let lk1 := { lk with reader_count := r.2 }
  if r.1 = 1 then
    let w := fetch_and_store lk1.next_writer 0
    let lk2 := { lk1 with next_writer := w.2 }
    if w.1 ≠ 0 then
      setNode lk2 w.1 fun nd => { nd with state := atomic_and nd.state (-2) }
    else lk2
  else lk1


/-- Model of wg_end_read in the queued build. -/
def wg_end_read_queued (db : DbQ) (lock : Nat) : Option (Int × DbQ) :=
  if !db.valid then some (0, db) else
  match end_read_step1 db.locks lock with
  | none => none
  | some lk1 =>
    match free_lock (end_read_handoff lk1) lock with
    | none => none
    | some lk2 => some (1, { db with locks := lk2 })


/- ---- pool conservation (claim C8) ---- -/

/-- Chain lk h L: starting from offset h and following next_cell links, the
null-terminated list of node offsets traversed is L. -/
inductive Chain (lk : db_locks) : Nat → List Nat → Prop where
  | nil : Chain lk 0 []
  | cons {o : Nat} {L : List Nat} :
      o ≠ 0 → Chain lk ((lk.nodes o).next_cell) L → Chain lk o (o :: L)


/-- Sequential runs of the node pool: any interleaving of alloc_lock and
free_lock calls, where a free may only target a node allocated earlier and
not yet freed (the ghost Finset A tracks currently allocated offsets; a free
of anything else is the API misuse the spec leaves undefined). -/
inductive PoolRun : db_locks → Finset Nat → db_locks → Finset Nat → Prop where
  | nil (lk : db_locks) (A : Finset Nat) : PoolRun lk A lk A
  | alloc {lk : db_locks} {A : Finset Nat} {t : Nat} {lk1 lk2 : db_locks}
      {A2 : Finset Nat} :
      alloc_lock lk = some (t, lk1) →
      PoolRun lk1 (if t = 0 then A else insert t A) lk2 A2 →
      PoolRun lk A lk2 A2
  | free {lk : db_locks} {A : Finset Nat} {o : Nat} {lk1 lk2 : db_locks}
      {A2 : Finset Nat} :
      o ∈ A → free_lock lk o = some lk1 →
      PoolRun lk1 (A.erase o) lk2 A2 →
      PoolRun lk A lk2 A2


/-- Well-formedness of the pool: the freelist is a null-terminated acyclic
chain disjoint from the allocated set; together they hold exactly the initial
offsets; free nodes carry refcount 1 (the on-freelist claim), allocated nodes
refcount 2 (the reference held by the caller). -/
def PoolWF (lk : db_locks) (A : Finset Nat) (offs : Finset Nat) : Prop :=
  ∃ L : List Nat, Chain lk lk.freelist L ∧ L.Nodup
    ∧ (∀ o ∈ L, o ∉ A)
    ∧ L.toFinset ∪ A = offs
    ∧ (∀ o ∈ L, (lk.nodes o).refcount = 1)
    ∧ (∀ o ∈ A, (lk.nodes o).refcount = 2 ∧ o ≠ 0)


/-- The offsets of the max_nodes arena cells, in address order. -/
def pool_offsets (storage m : Nat) : List Nat :=
  (List.range m).map fun k => storage + k * SYN_VAR_PADDING


/- ---- concrete pool-exhaustion run (claim C7 scenario) ---- -/

/-- A fresh valid two-node database for the exhaustion scenario: arena at
offset 64, so the two cells live at offsets 64 and 128. -/
def c7_db0 : DbQ :=
  { valid := true,
    locks := { tail := 0, next_writer := 0, reader_count := 0, freelist := 0,
               storage := 64, max_nodes := 2, nodes := fun _ => ⟨0, 0, 0, 0, 0⟩ } }


/-- The scenario database after init_lock_queue. -/
def c7_st0 : DbQ := (init_lock_queue c7_db0).2


/-- State after the first successful wg_start_read (token 64). -/
def c7_st1 : DbQ := ((wg_start_read_queued c7_st0).getD (0, c7_st0)).2


/-- State after the second successful wg_start_read (token 128). -/
def c7_st2 : DbQ := ((wg_start_read_queued c7_st1).getD (0, c7_st1)).2


/-- State after releasing token 128 with wg_end_read. -/
def c7_st3 : DbQ := ((wg_end_read_queued c7_st2 128).getD (0, c7_st2)).2


/- ---- concrete states used by counterexamples and witnesses ---- -/

/-- A valid one-node queued database whose tail, next_writer and reader_count
fields are deliberately nonzero before init_lock_queue is called. -/
def c2_db : DbQ :=
  { valid := true,
    locks := { tail := 7, next_writer := 5, reader_count := 3, freelist := 0,
               storage := 64, max_nodes := 1, nodes := fun _ => ⟨0, 0, 0, 0, 0⟩ } }


/-- An invalid queued-mode handle. -/
def c9_bad : DbQ :=
  { valid := false,
    locks := { tail := 7, next_writer := 5, reader_count := 3, freelist := 9,
               storage := 64, max_nodes := 1, nodes := fun _ => ⟨0, 0, 0, 0, 0⟩ } }


/-- An invalid simple-mode handle. -/
def c9_bads : DbS := { valid := false, sync_word := 5 }


/-- A lock state with one active reader and a writer queued at offset 5,
used to exercise the last-reader handoff. -/
def c6w_lk : db_locks :=
  { tail := 0, next_writer := 5, reader_count := 1, freelist := 0,
    storage := 64, max_nodes := 1, nodes := fun _ => ⟨4, 1, 0, 0, 2⟩ }

/- ==== Theorems ==== -/


/- ---- bit-level facts about the sync word ----
The sync word of the simple-mode lock always has the shape w + 2*r with
w ≤ 1 (w = writer-active flag, r = reader count).  The two facts below give
the value of the two bitwise operations the code performs on it:
testing WAFLAG, and clearing WAFLAG with atomic_and(gl, ~WAFLAG), where
~WAFLAG = -2 in twos complement. -/

theorem land_one_of_shape (w r : Nat) (hw : w ≤ 1) :
    Int.land ((w : Int) + 2 * (r : Int)) 1 = (w : Int) := by
  have h1 : ((w : Int) + 2 * (r : Int)) = ((w + 2 * r : Nat) : Int) := by push_cast; ring
  have h2 : Int.land ((w + 2 * r : Nat) : Int) ((1 : Nat) : Int)
      = (((w + 2 * r) &&& 1 : Nat) : Int) := rfl
  rw [h1]
  have h3 : ((1 : Nat) : Int) = (1 : Int) := rfl
  rw [← h3, h2, Nat.and_one_is_mod]
  omega


theorem ldiff_one_odd (r : Nat) : Nat.ldiff (1 + 2 * r) 1 = 2 * r := by
  apply Nat.eq_of_testBit_eq
  intro i
  rw [Nat.testBit_ldiff]
  cases i with
  | zero => simp [Nat.testBit_zero]
  | succ j =>
      have h1 : Nat.testBit 1 (j + 1) = false := by
        rw [Nat.testBit_succ]; simp
      rw [h1, Nat.testBit_succ, Nat.testBit_succ]
      have h2 : (1 + 2 * r) / 2 = r := by omega
      have h3 : (2 * r) / 2 = r := by omega
      rw [h2, h3]
      simp


theorem land_neg_two_odd (r : Nat) :
    Int.land (1 + 2 * (r : Int)) (-2) = 2 * (r : Int) := by
  have h1 : (1 + 2 * (r : Int)) = ((1 + 2 * r : Nat) : Int) := by push_cast; ring
  have h2 : (-2 : Int) = Int.negSucc 1 := rfl
  have h3 : Int.land ((1 + 2 * r : Nat) : Int) (Int.negSucc 1)
      = ((Nat.ldiff (1 + 2 * r) 1 : Nat) : Int) := rfl
  rw [h1, h2, h3, ldiff_one_odd]
  push_cast; ring


theorem ldiff_one_eq (m : Nat) : Nat.ldiff m 1 = m - m % 2 := by
  apply Nat.eq_of_testBit_eq
  intro i
  rw [Nat.testBit_ldiff]
  cases i with
  | zero => simp [Nat.testBit_zero]; omega
  | succ j =>
      have h1 : Nat.testBit 1 (j + 1) = false := by
        rw [Nat.testBit_succ]; simp
      rw [h1, Nat.testBit_succ, Nat.testBit_succ]
      have h2 : (m - m % 2) / 2 = m / 2 := by omega
      rw [h2]
      simp


theorem lor_one_eq (m : Nat) : m ||| 1 = m + 1 - m % 2 := by
  apply Nat.eq_of_testBit_eq
  intro i
  rw [Nat.testBit_lor]
  cases i with
  | zero =>
      simp [Nat.testBit_zero]
      omega
  | succ j =>
      have h1 : Nat.testBit 1 (j + 1) = false := by
        rw [Nat.testBit_succ]; simp
      rw [h1, Nat.testBit_succ, Nat.testBit_succ]
      have h2 : (m + 1 - m % 2) / 2 = m / 2 := by omega
      rw [h2]
      simp


/-- Evaluation rule for clearing the blocked bit: on any gint value v, the
operation atomic_and(v, ~1) of the source equals v - v mod 2.  Stated as a
rewrite because Nat.ldiff, which Int.land unfolds to, is not reducible by the
kernel evaluator. -/
theorem land_neg_two_eq (v : Int) : Int.land v (-2) = v - v % 2 := by
  cases v with
  | ofNat m =>
      have h2 : (-2 : Int) = Int.negSucc 1 := rfl
      have h3 : Int.land (Int.ofNat m) (Int.negSucc 1)
          = ((Nat.ldiff m 1 : Nat) : Int) := rfl
      rw [h2, h3, ldiff_one_eq]
      have hm : ((m : Int)) % 2 = ((m % 2 : Nat) : Int) := by push_cast; rfl
      have : Int.ofNat m = (m : Int) := rfl
      rw [this, hm]
      have hle : m % 2 ≤ m := Nat.mod_le m 2
      omega
  | negSucc m =>
      have h2 : (-2 : Int) = Int.negSucc 1 := rfl
      have h3 : Int.land (Int.negSucc m) (Int.negSucc 1)
          = Int.negSucc (m ||| 1) := rfl
      rw [h2, h3, lor_one_eq]
      have h4 : ∀ k : Nat, Int.negSucc k = -((k : Int) + 1) := fun k => rfl
      rw [h4, h4]
      have h5 : m % 2 ≤ m + 1 := by omega
      have hm : ((m % 2 : Nat) : Int) = (m : Int) % 2 := by push_cast; rfl
      push_cast [h5]
      omega


theorem ldiff_bit0 (m : Nat) : Nat.ldiff 1 m = 1 - m % 2 := by
  apply Nat.eq_of_testBit_eq
  intro i
  rw [Nat.testBit_ldiff]
  cases i with
  | zero =>
      rcases Nat.mod_two_eq_zero_or_one m with hm | hm <;>
        simp [Nat.testBit_zero, hm]
  | succ j =>
      rw [Nat.testBit_succ, Nat.testBit_succ, Nat.testBit_succ]
      have h1 : (1 : Nat) / 2 = 0 := by norm_num
      have h2 : (1 - m % 2) / 2 = 0 := by omega
      rw [h1, h2]
      simp


/-- Testing the WAFLAG bit of any gint value v equals v mod 2. -/
theorem land_one_mod (v : Int) : Int.land v 1 = v % 2 := by
  cases v with
  | ofNat m =>
      have h3 : Int.land (Int.ofNat m) ((1 : Nat) : Int)
          = ((m &&& 1 : Nat) : Int) := rfl
      rw [show (1 : Int) = ((1 : Nat) : Int) from rfl, h3, Nat.and_one_is_mod]
      have : Int.ofNat m = (m : Int) := rfl
      rw [this]
      omega
  | negSucc m =>
      have h3 : Int.land (Int.negSucc m) ((1 : Nat) : Int)
          = ((Nat.ldiff 1 m : Nat) : Int) := rfl
      rw [show (1 : Int) = ((1 : Nat) : Int) from rfl, h3, ldiff_bit0]
      have h4 : Int.negSucc m = -((m : Int) + 1) := rfl
      rw [h4]
      omega


/- ---- literal evaluation facts for the bit operations on node words ----
Nat.land under Int.land is kernel-reducible but not reduced by the
evaluator of the elaborator, so the concrete-run proofs below use this table of
evaluated instances as rewrite rules. -/

theorem land_eval_0_1 : Int.land 0 1 = 0 := by decide
theorem land_eval_0_2 : Int.land 0 2 = 0 := by decide
theorem land_eval_0_4 : Int.land 0 4 = 0 := by decide
theorem land_eval_1_1 : Int.land 1 1 = 1 := by decide
theorem land_eval_1_2 : Int.land 1 2 = 0 := by decide
theorem land_eval_1_4 : Int.land 1 4 = 0 := by decide
theorem land_eval_2_1 : Int.land 2 1 = 0 := by decide
theorem land_eval_2_2 : Int.land 2 2 = 2 := by decide
theorem land_eval_2_4 : Int.land 2 4 = 0 := by decide
theorem land_eval_3_1 : Int.land 3 1 = 1 := by decide
theorem land_eval_3_2 : Int.land 3 2 = 2 := by decide
theorem land_eval_3_4 : Int.land 3 4 = 0 := by decide
theorem land_eval_4_1 : Int.land 4 1 = 0 := by decide
theorem land_eval_4_2 : Int.land 4 2 = 0 := by decide
theorem land_eval_4_4 : Int.land 4 4 = 4 := by decide
theorem land_eval_5_1 : Int.land 5 1 = 1 := by decide
theorem land_eval_5_2 : Int.land 5 2 = 0 := by decide
theorem land_eval_5_4 : Int.land 5 4 = 4 := by decide
theorem land_eval_6_1 : Int.land 6 1 = 0 := by decide
theorem land_eval_6_2 : Int.land 6 2 = 2 := by decide
theorem land_eval_6_4 : Int.land 6 4 = 4 := by decide
theorem land_eval_7_1 : Int.land 7 1 = 1 := by decide
theorem land_eval_7_2 : Int.land 7 2 = 2 := by decide
theorem land_eval_7_4 : Int.land 7 4 = 4 := by decide

theorem lor_eval_0_2 : Int.lor 0 2 = 2 := by decide
theorem lor_eval_0_4 : Int.lor 0 4 = 4 := by decide
theorem lor_eval_1_2 : Int.lor 1 2 = 3 := by decide
theorem lor_eval_1_4 : Int.lor 1 4 = 5 := by decide
theorem lor_eval_2_2 : Int.lor 2 2 = 2 := by decide
theorem lor_eval_2_4 : Int.lor 2 4 = 6 := by decide
theorem lor_eval_3_2 : Int.lor 3 2 = 3 := by decide
theorem lor_eval_3_4 : Int.lor 3 4 = 7 := by decide
theorem lor_eval_4_2 : Int.lor 4 2 = 6 := by decide
theorem lor_eval_4_4 : Int.lor 4 4 = 4 := by decide
theorem lor_eval_5_2 : Int.lor 5 2 = 7 := by decide
theorem lor_eval_5_4 : Int.lor 5 4 = 5 := by decide
theorem lor_eval_6_2 : Int.lor 6 2 = 6 := by decide
theorem lor_eval_6_4 : Int.lor 6 4 = 6 := by decide
theorem lor_eval_7_2 : Int.lor 7 2 = 7 := by decide
theorem lor_eval_7_4 : Int.lor 7 4 = 7 := by decide

namespace SimpleTS


theorem cnt_update {n : Nat} (f : Fin n → Pc) (i : Fin n) (x : Pc)
    (p : Pc → Bool) :
    cnt (Function.update f i x) p + (if p (f i) then 1 else 0)
      = cnt f p + (if p x then 1 else 0) := by
  classical
  have key : ∀ g : Fin n → Pc,
      cnt g p = (if p (g i) then 1 else 0)
        + ((Finset.univ.erase i).filter fun t => p (g t) = true).card := by
    intro g
    unfold cnt
    have hsplit : (Finset.univ.filter fun t => p (g t) = true)
        = if p (g i) = true then
            insert i ((Finset.univ.erase i).filter fun t => p (g t) = true)
          else ((Finset.univ.erase i).filter fun t => p (g t) = true) := by
      ext u
      by_cases hu : u = i
      · subst hu
        by_cases hp : p (g u) = true <;>
          simp [hp, Finset.mem_filter, Finset.mem_erase]
      · by_cases hp : p (g i) = true <;>
          simp [hp, hu, Finset.mem_filter, Finset.mem_erase]
    rw [hsplit]
    by_cases hp : p (g i) = true
    · rw [if_pos hp, if_pos hp, Finset.card_insert_of_not_mem]
      · omega
      · simp [Finset.mem_filter, Finset.mem_erase]
    · rw [if_neg hp, if_neg hp]
      omega
  have hcongr : ((Finset.univ.erase i).filter
        fun t => p (Function.update f i x t) = true)
      = ((Finset.univ.erase i).filter fun t => p (f t) = true) := by
    apply Finset.filter_congr
    intro u hu
    have : u ≠ i := (Finset.mem_erase.mp hu).1
    simp [Function.update_apply, this]
  rw [key (Function.update f i x), key f, hcongr]
  have hx : Function.update f i x i = x := Function.update_same i x f
  rw [hx]
  omega


theorem cnt_pos_of_mem {n : Nat} (f : Fin n → Pc) (t : Fin n) (p : Pc → Bool)
    (h : p (f t) = true) : 1 ≤ cnt f p := by
  apply Finset.card_pos.mpr
  exact ⟨t, by simp [Finset.mem_filter, h]⟩


theorem cnt_le_cnt {n : Nat} (f : Fin n → Pc) (p q : Pc → Bool)
    (h : ∀ x, p x = true → q x = true) : cnt f p ≤ cnt f q := by
  apply Finset.card_le_card
  intro u hu
  rw [Finset.mem_filter] at hu ⊢
  exact ⟨hu.1, h _ hu.2⟩


theorem inv_init (n : Nat) : Inv (init n) := by
  refine ⟨?_, ?_, ?_⟩ <;> simp [init, cnt, isW, isR, isRcs, Inv]


theorem inv_step {n : Nat} {a : Act} {t : Fin n} {c c2 : Cfg n}
    (hs : Step a t c c2) (hI : Inv c) : Inv c2 := by
  obtain ⟨hsync, hWle, hWR⟩ := hI
  have hRcsR : cnt c.tpc isRcs ≤ cnt c.tpc isR :=
    cnt_le_cnt c.tpc isRcs isR (by intro x; cases x <;> simp [isRcs, isR])
  cases hs with
  | start_write_ok h h0 =>
      have eW := cnt_update c.tpc t Pc.wcs isW
      have eR := cnt_update c.tpc t Pc.wcs isR
      have eC := cnt_update c.tpc t Pc.wcs isRcs
      rw [h] at eW eR eC
      simp [isW, isR, isRcs] at eW eR eC
      rw [hsync] at h0
      simp only [Inv, WAFLAG]
      omega
  | start_write_fail h h0 =>
      have eW := cnt_update c.tpc t Pc.wspin isW
      have eR := cnt_update c.tpc t Pc.wspin isR
      have eC := cnt_update c.tpc t Pc.wspin isRcs
      rw [h] at eW eR eC
      simp [isW, isR, isRcs] at eW eR eC
      simp only [Inv]
      omega
  | write_spin_read_zero h h0 =>
      have eW := cnt_update c.tpc t Pc.wcas isW
      have eR := cnt_update c.tpc t Pc.wcas isR
      have eC := cnt_update c.tpc t Pc.wcas isRcs
      rw [h] at eW eR eC
      simp [isW, isR, isRcs] at eW eR eC
      simp only [Inv]
      omega
  | write_spin_read_nonzero h h0 =>
      exact ⟨hsync, hWle, hWR⟩
  | write_spin_cas_ok h h0 =>
      have eW := cnt_update c.tpc t Pc.wcs isW
      have eR := cnt_update c.tpc t Pc.wcs isR
      have eC := cnt_update c.tpc t Pc.wcs isRcs
      rw [h] at eW eR eC
      simp [isW, isR, isRcs] at eW eR eC
      rw [hsync] at h0
      simp only [Inv, WAFLAG]
      omega
  | write_spin_cas_fail h h0 =>
      have eW := cnt_update c.tpc t Pc.wspin isW
      have eR := cnt_update c.tpc t Pc.wspin isR
      have eC := cnt_update c.tpc t Pc.wspin isRcs
      rw [h] at eW eR eC
      simp [isW, isR, isRcs] at eW eR eC
      simp only [Inv]
      omega
  | end_write_step h =>
      have hW1 : 1 ≤ cnt c.tpc isW :=
        cnt_pos_of_mem c.tpc t isW (by rw [h]; rfl)
      have eW := cnt_update c.tpc t Pc.idle isW
      have eR := cnt_update c.tpc t Pc.idle isR
      have eC := cnt_update c.tpc t Pc.idle isRcs
      rw [h] at eW eR eC
      simp [isW, isR, isRcs] at eW eR eC
      simp only [Inv, atomic_and]
      rw [land_neg_two_eq]
      omega
  | read_incr h =>
      have eW := cnt_update c.tpc t Pc.rchk isW
      have eR := cnt_update c.tpc t Pc.rchk isR
      have eC := cnt_update c.tpc t Pc.rchk isRcs
      rw [h] at eW eR eC
      simp [isW, isR, isRcs] at eW eR eC
      simp only [Inv, fetch_and_add, RC_INCR]
      omega
  | read_check_clear h hb =>
      have hW0 : cnt c.tpc isW = 0 := by
        rw [hsync] at hb
        simp only [WAFLAG] at hb
        rw [land_one_of_shape _ _ hWle] at hb
        omega
      have eW := cnt_update c.tpc t Pc.rcs isW
      have eR := cnt_update c.tpc t Pc.rcs isR
      have eC := cnt_update c.tpc t Pc.rcs isRcs
      rw [h] at eW eR eC
      simp [isW, isR, isRcs] at eW eR eC
      simp only [Inv]
      omega
  | read_check_set h hb =>
      have eW := cnt_update c.tpc t Pc.rwait isW
      have eR := cnt_update c.tpc t Pc.rwait isR
      have eC := cnt_update c.tpc t Pc.rwait isRcs
      rw [h] at eW eR eC
      simp [isW, isR, isRcs] at eW eR eC
      simp only [Inv]
      omega
  | read_spin_clear h hb =>
      have hW0 : cnt c.tpc isW = 0 := by
        rw [hsync] at hb
        simp only [WAFLAG] at hb
        rw [land_one_of_shape _ _ hWle] at hb
        omega
      have eW := cnt_update c.tpc t Pc.rcs isW
      have eR := cnt_update c.tpc t Pc.rcs isR
      have eC := cnt_update c.tpc t Pc.rcs isRcs
      rw [h] at eW eR eC
      simp [isW, isR, isRcs] at eW eR eC
      simp only [Inv]
      omega
  | read_spin_set h hb =>
      exact ⟨hsync, hWle, hWR⟩
  | end_read_step h =>
      have hR1 : 1 ≤ cnt c.tpc isR :=
        cnt_pos_of_mem c.tpc t isR (by rw [h]; rfl)
      have hC1 : 1 ≤ cnt c.tpc isRcs :=
        cnt_pos_of_mem c.tpc t isRcs (by rw [h]; rfl)
      have eW := cnt_update c.tpc t Pc.idle isW
      have eR := cnt_update c.tpc t Pc.idle isR
      have eC := cnt_update c.tpc t Pc.idle isRcs
      rw [h] at eW eR eC
      simp [isW, isR, isRcs] at eW eR eC
      simp only [Inv, fetch_and_add, RC_INCR]
      omega


theorem inv_reach {n : Nat} {c c2 : Cfg n} (hr : Reach c c2) (hI : Inv c) :
    Inv c2 := by
  induction hr with
  | refl => exact hI
  | tail hr1 hs ih => exact inv_step hs ih


theorem mutex_of_inv {n : Nat} {c : Cfg n} (hI : Inv c) : MutEx c := by
  obtain ⟨hsync, hWle, hWR⟩ := hI
  exact ⟨hWle, fun hr => by omega⟩

end SimpleTS


/- ---- characterization of initialization (claims C2, C8) ---- -/

theorem setNode_nodes (lk : db_locks) (o : Nat)
    (f : lock_queue_node → lock_queue_node) (x : Nat) :
    (setNode lk o f).nodes x = if x = o then f (lk.nodes o) else lk.nodes x := by
  simp [setNode, Function.update_apply]


theorem setNode_setNode (lk : db_locks) (o : Nat)
    (f g : lock_queue_node → lock_queue_node) :
    setNode (setNode lk o f) o g = setNode lk o (fun nd => g (f nd)) := by
  simp [setNode, Function.update_same, Function.update_idem]


theorem syn_pad_pos : 0 < SYN_VAR_PADDING := by decide


theorem init_cells_scalars (base m : Nat) (lk : db_locks) :
    (init_cells base m lk).tail = lk.tail
    ∧ (init_cells base m lk).next_writer = lk.next_writer
    ∧ (init_cells base m lk).reader_count = lk.reader_count
    ∧ (init_cells base m lk).freelist = lk.freelist
    ∧ (init_cells base m lk).storage = lk.storage
    ∧ (init_cells base m lk).max_nodes = lk.max_nodes := by
  induction m generalizing base lk with
  | zero => simp [init_cells]
  | succ m ih =>
      simp only [init_cells]
      have h := ih (base + SYN_VAR_PADDING)
        (setNode lk base fun nd =>
          { nd with refcount := 1, next_cell := base + SYN_VAR_PADDING })
      simpa [setNode] using h


theorem init_cells_nodes (m : Nat) (base : Nat) (lk : db_locks) (o : Nat) :
    (init_cells base m lk).nodes o =
      if ∃ k, k < m ∧ o = base + k * SYN_VAR_PADDING then
        { lk.nodes o with refcount := 1, next_cell := o + SYN_VAR_PADDING }
      else lk.nodes o := by
  induction m generalizing base lk with
  | zero => simp [init_cells]
  | succ m ih =>
      simp only [init_cells]
      rw [ih]
      by_cases hbase : o = base
      · subst hbase
        have hnot : ¬ ∃ k, k < m ∧ o = o + SYN_VAR_PADDING + k * SYN_VAR_PADDING := by
          rintro ⟨k, _, hk⟩
          have := syn_pad_pos
          omega
      
        have hyes : ∃ k, k < m + 1 ∧ o = o + k * SYN_VAR_PADDING := ⟨0, by omega, by omega⟩
        rw [if_neg hnot, if_pos hyes, setNode_nodes, if_pos rfl]
      · have hiff : (∃ k, k < m ∧ o = base + SYN_VAR_PADDING + k * SYN_VAR_PADDING)
            ↔ (∃ k, k < m + 1 ∧ o = base + k * SYN_VAR_PADDING) := by
          constructor
          · rintro ⟨k, hk, he⟩
            exact ⟨k + 1, by omega, by rw [he]; ring⟩
          · rintro ⟨k, hk, he⟩
            match k with
            | 0 => exact absurd (by simpa using he) hbase
            | k + 1 => exact ⟨k, by omega, by rw [he]; ring⟩
        by_cases hmem : ∃ k, k < m + 1 ∧ o = base + k * SYN_VAR_PADDING
        · rw [if_pos (hiff.mpr hmem), if_pos hmem, setNode_nodes, if_neg hbase]
        · rw [if_neg (fun hc => hmem (hiff.mp hc)), if_neg hmem,
            setNode_nodes, if_neg hbase]


theorem init_lock_queue_spec (db : DbQ) (hv : db.valid = true)
    (hm : 1 ≤ db.locks.max_nodes) :
    (init_lock_queue db).1 = 0
    ∧ (init_lock_queue db).2.valid = true
    ∧ (init_lock_queue db).2.locks.tail = db.locks.tail
    ∧ (init_lock_queue db).2.locks.next_writer = db.locks.next_writer
    ∧ (init_lock_queue db).2.locks.reader_count = db.locks.reader_count
    ∧ (init_lock_queue db).2.locks.freelist = db.locks.storage
    ∧ (init_lock_queue db).2.locks.storage = db.locks.storage
    ∧ (init_lock_queue db).2.locks.max_nodes = db.locks.max_nodes
    ∧ ∀ k, k < db.locks.max_nodes →
        (init_lock_queue db).2.locks.nodes
            (db.locks.storage + k * SYN_VAR_PADDING)
          = { db.locks.nodes (db.locks.storage + k * SYN_VAR_PADDING) with
              refcount := 1,
              next_cell := if k + 1 = db.locks.max_nodes then 0
                else db.locks.storage + (k + 1) * SYN_VAR_PADDING } := by
  have hpad := syn_pad_pos
  obtain ⟨e1, e2, e3, e4, e5, e6⟩ :=
    init_cells_scalars db.locks.storage db.locks.max_nodes db.locks
  have hmn : ¬ db.locks.max_nodes = 0 := by omega
  refine ⟨?_, ?_, ?_, ?_, ?_, ?_, ?_, ?_, ?_⟩
  · simp [init_lock_queue, hv, hmn]
  · simp [init_lock_queue, hv, hmn]
  · simp only [init_lock_queue, hv, Bool.not_true, Bool.false_eq_true,
      if_false, if_neg hmn]
    simpa [setNode] using e1
  · simp only [init_lock_queue, hv, Bool.not_true, Bool.false_eq_true,
      if_false, if_neg hmn]
    simpa [setNode] using e2
  · simp only [init_lock_queue, hv, Bool.not_true, Bool.false_eq_true,
      if_false, if_neg hmn]
    simpa [setNode] using e3
  · simp only [init_lock_queue, hv, Bool.not_true, Bool.false_eq_true,
      if_false, if_neg hmn]
    simpa [setNode] using e5
  · simp only [init_lock_queue, hv, Bool.not_true, Bool.false_eq_true,
      if_false, if_neg hmn]
    simpa [setNode] using e5
  · simp only [init_lock_queue, hv, Bool.not_true, Bool.false_eq_true,
      if_false, if_neg hmn]
    simpa [setNode] using e6
  · intro k hk
    have hcell := init_cells_nodes db.locks.max_nodes db.locks.storage db.locks
      (db.locks.storage + k * SYN_VAR_PADDING)
    rw [if_pos ⟨k, hk, rfl⟩] at hcell
    simp only [init_lock_queue, hv, Bool.not_true, Bool.false_eq_true,
      if_false, if_neg hmn]
    rw [setNode_nodes]
    by_cases hc : k + 1 = db.locks.max_nodes
    · have hke : k = db.locks.max_nodes - 1 := by omega
      have hoeq : db.locks.storage + k * SYN_VAR_PADDING
          = db.locks.storage + (db.locks.max_nodes - 1) * SYN_VAR_PADDING := by
        rw [hke]
      rw [if_pos hoeq, ← hoeq, hcell, if_pos hc]
    · have hne : ¬ (db.locks.storage + k * SYN_VAR_PADDING
          = db.locks.storage + (db.locks.max_nodes - 1) * SYN_VAR_PADDING) := by
        intro h
        have h2 : k * SYN_VAR_PADDING
            = (db.locks.max_nodes - 1) * SYN_VAR_PADDING := by omega
        have := Nat.eq_of_mul_eq_mul_right hpad h2
        omega
      rw [if_neg hne, hcell, if_neg hc]
      have harith : db.locks.storage + k * SYN_VAR_PADDING + SYN_VAR_PADDING
          = db.locks.storage + (k + 1) * SYN_VAR_PADDING := by ring
      rw [harith]


theorem alloc_lock_zero_iff (lk : db_locks) :
    (alloc_lock lk).map Prod.fst = some 0 ↔ lk.freelist = 0 := by
  by_cases h : lk.freelist = 0
  · simp [alloc_lock, alloc_lock_go, h]
  · simp [alloc_lock, alloc_lock_go, h, setNode, compare_and_swap,
      fetch_and_add]


theorem alloc_lock_of_ne {lk : db_locks} (h : lk.freelist ≠ 0) :
    alloc_lock lk = some (lk.freelist,
      { tail := lk.tail, next_writer := lk.next_writer,
        reader_count := lk.reader_count,
        freelist := (lk.nodes lk.freelist).next_cell,
        storage := lk.storage, max_nodes := lk.max_nodes,
        nodes := Function.update lk.nodes lk.freelist
          { lk.nodes lk.freelist with
            refcount := (lk.nodes lk.freelist).refcount + 1 } }) := by
  simp only [alloc_lock, alloc_lock_go, h, if_neg h, setNode,
    compare_and_swap, fetch_and_add, Function.update_same, if_pos rfl]
  simp [Function.update_idem, Function.update_same]
  have harith : (lk.nodes lk.freelist).refcount + 2 + -1
      = (lk.nodes lk.freelist).refcount + 1 := by omega
  rw [harith]


theorem free_lock_of_refcount_two {lk : db_locks} {node : Nat}
    (h2 : (lk.nodes node).refcount = 2) :
    free_lock lk node = some
      { tail := lk.tail, next_writer := lk.next_writer,
        reader_count := lk.reader_count,
        freelist := node, storage := lk.storage, max_nodes := lk.max_nodes,
        nodes := Function.update lk.nodes node
          { lk.nodes node with refcount := 1, next_cell := lk.freelist } } := by
  simp only [free_lock, free_lock_push, setNode, compare_and_swap,
    fetch_and_add, Function.update_same, h2]
  norm_num


theorem chain_congr {lk lk2 : db_locks} {h : Nat} {L : List Nat}
    (hc : Chain lk h L)
    (hn : ∀ x ∈ L, (lk2.nodes x).next_cell = (lk.nodes x).next_cell) :
    Chain lk2 h L := by
  induction hc with
  | nil => exact Chain.nil
  | cons ho hc2 ih =>
      refine Chain.cons ho ?_
      rw [hn _ (List.mem_cons_self _ _)]
      exact ih fun x hx => hn x (List.mem_cons_of_mem _ hx)


theorem chain_head_mem {lk : db_locks} {h : Nat} {L : List Nat}
    (hc : Chain lk h L) (hne : h ≠ 0) : L.headI = h ∧ L ≠ [] := by
  cases hc with
  | nil => exact absurd rfl hne
  | cons ho hc2 => exact ⟨rfl, by simp⟩


theorem chain_cons_of_ne {lk : db_locks} {h : Nat} {L : List Nat}
    (hc : Chain lk h L) (hne : h ≠ 0) :
    ∃ L2, L = h :: L2 ∧ Chain lk ((lk.nodes h).next_cell) L2 := by
  cases hc with
  | nil => exact absurd rfl hne
  | cons ho hc2 => exact ⟨_, rfl, hc2⟩


theorem pool_wf_alloc {lk : db_locks} {A offs : Finset Nat} {t : Nat}
    {lk1 : db_locks} (hwf : PoolWF lk A offs)
    (ha : alloc_lock lk = some (t, lk1)) :
    PoolWF lk1 (if t = 0 then A else insert t A) offs := by
  obtain ⟨L, hchain, hnodup, hdisj, hunion, hfree, halloc⟩ := hwf
  by_cases hfz : lk.freelist = 0
  · have heq : alloc_lock lk = some (0, lk) := by
      simp [alloc_lock, alloc_lock_go, hfz]
    rw [heq] at ha
    have hpair : (0 : Nat) = t ∧ lk = lk1 := by
      have := Option.some.inj ha
      exact ⟨congrArg Prod.fst this, congrArg Prod.snd this⟩
    obtain ⟨ht, hlk⟩ := hpair
    subst hlk
    rw [if_pos ht.symm]
    exact ⟨L, hchain, hnodup, hdisj, hunion, hfree, halloc⟩
  · rw [alloc_lock_of_ne hfz] at ha
    have hpair := Option.some.inj ha
    have ht : t = lk.freelist := (congrArg Prod.fst hpair).symm
    have hlk1 : lk1 = _ := (congrArg Prod.snd hpair).symm
    subst ht
    obtain ⟨L2, hL, hchain2⟩ := chain_cons_of_ne hchain hfz
    subst hL
    · have htL2 : lk.freelist ∉ L2 := (List.nodup_cons.mp hnodup).1
      have hfree_head : (lk.nodes lk.freelist).refcount = 1 :=
        hfree _ (List.mem_cons_self _ _)
      have hAt : lk.freelist ∉ A := hdisj _ (List.mem_cons_self _ _)
      rw [if_neg hfz]
      refine ⟨L2, ?_, (List.nodup_cons.mp hnodup).2, ?_, ?_, ?_, ?_⟩
      · rw [hlk1]
        refine chain_congr hchain2 ?_
        intro x hx
        have hxne : x ≠ lk.freelist := fun hc => htL2 (hc ▸ hx)
        simp [Function.update_noteq hxne]
      · intro x hx
        have hxne : x ≠ lk.freelist := fun hc => htL2 (hc ▸ hx)
        simp only [Finset.mem_insert]
        rintro (hc | hc)
        · exact hxne hc
        · exact hdisj x (List.mem_cons_of_mem _ hx) hc
      · rw [← hunion]
        simp only [List.toFinset_cons]
        rw [Finset.insert_union, Finset.union_insert]
      · intro x hx
        have hxne : x ≠ lk.freelist := fun hc => htL2 (hc ▸ hx)
        rw [hlk1]
        simp only [Function.update_noteq hxne]
        exact hfree x (List.mem_cons_of_mem _ hx)
      · intro x hx
        rcases Finset.mem_insert.mp hx with hc | hc
        · subst hc
          rw [hlk1]
          simp only [Function.update_same]
          exact ⟨by rw [hfree_head]; decide, hfz⟩
        · have hxne : x ≠ lk.freelist := fun hd => hAt (hd ▸ hc)
          rw [hlk1]
          simp only [Function.update_noteq hxne]
          exact halloc x hc


theorem pool_wf_free {lk : db_locks} {A offs : Finset Nat} {o : Nat}
    {lk1 : db_locks} (hwf : PoolWF lk A offs) (ho : o ∈ A)
    (hf : free_lock lk o = some lk1) :
    PoolWF lk1 (A.erase o) offs := by
  obtain ⟨L, hchain, hnodup, hdisj, hunion, hfree, halloc⟩ := hwf
  obtain ⟨hrc2, hone⟩ := halloc o ho
  rw [free_lock_of_refcount_two hrc2] at hf
  have hlk1 := (Option.some.inj hf).symm
  have hoL : o ∉ L := fun hc => hdisj o hc ho
  refine ⟨o :: L, ?_, List.nodup_cons.mpr ⟨hoL, hnodup⟩, ?_, ?_, ?_, ?_⟩
  · rw [hlk1]
    refine Chain.cons hone ?_
    simp only [Function.update_same]
    refine chain_congr hchain ?_
    intro x hx
    have hxne : x ≠ o := fun hc => hoL (hc ▸ hx)
    simp [Function.update_noteq hxne]
  · intro x hx
    rcases List.mem_cons.mp hx with hc | hc
    · subst hc; exact Finset.not_mem_erase x A
    · intro hmem
      exact hdisj x hc (Finset.mem_of_mem_erase hmem)
  · rw [← hunion]
    simp only [List.toFinset_cons]
    rw [Finset.insert_union, ← Finset.union_insert, Finset.insert_erase ho]
  · intro x hx
    rcases List.mem_cons.mp hx with hc | hc
    · subst hc
      rw [hlk1]
      simp [Function.update_same]
    · have hxne : x ≠ o := fun hd => hoL (hd ▸ hc)
      rw [hlk1]
      simp only [Function.update_noteq hxne]
      exact hfree x hc
  · intro x hx
    have hxA := Finset.mem_of_mem_erase hx
    have hxne : x ≠ o := Finset.ne_of_mem_erase hx
    rw [hlk1]
    simp only [Function.update_noteq hxne]
    exact halloc x hxA


theorem pool_wf_run {lk lk2 : db_locks} {A A2 offs : Finset Nat}
    (hrun : PoolRun lk A lk2 A2) (hwf : PoolWF lk A offs) :
    PoolWF lk2 A2 offs := by
  induction hrun with
  | nil lk A => exact hwf
  | alloc ha hrun2 ih => exact ih (pool_wf_alloc hwf ha)
  | free ho hf hrun2 ih => exact ih (pool_wf_free hwf ho hf)


theorem chain_seg (st : db_locks) (storage m : Nat) (hs : storage ≠ 0)
    (hcells : ∀ k, k < m → (st.nodes (storage + k * SYN_VAR_PADDING)).next_cell
      = if k + 1 = m then 0 else storage + (k + 1) * SYN_VAR_PADDING) :
    ∀ i j, j + i = m →
      Chain st (if i = 0 then 0 else storage + j * SYN_VAR_PADDING)
        ((List.range i).map fun d => storage + (j + d) * SYN_VAR_PADDING) := by
  intro i
  induction i with
  | zero =>
      intro j hj
      simpa [List.range_zero] using Chain.nil
  | succ i ih =>
      intro j hj
      have hstor : 0 < storage := Nat.pos_of_ne_zero hs
      have hhead : storage + j * SYN_VAR_PADDING ≠ 0 := by
        have : storage ≤ storage + j * SYN_VAR_PADDING := Nat.le_add_right _ _
        exact Nat.pos_iff_ne_zero.mp (Nat.lt_of_lt_of_le hstor this)
      have hlist : ((List.range (i + 1)).map
            fun d => storage + (j + d) * SYN_VAR_PADDING)
          = (storage + j * SYN_VAR_PADDING)
            :: ((List.range i).map fun d => storage + (j + 1 + d) * SYN_VAR_PADDING) := by
        rw [List.range_succ_eq_map, List.map_cons, List.map_map]
        refine congrArg₂ List.cons (by norm_num) ?_
        apply List.map_congr_left
        intro d hd
        simp only [Function.comp_apply, Nat.succ_eq_add_one]
        ring
      rw [if_neg (Nat.succ_ne_zero i), hlist]
      refine Chain.cons hhead ?_
      have hnc := hcells j (by omega)
      by_cases hi : i = 0
      · subst hi
        have hjm : j + 1 = m := by omega
        rw [hnc, if_pos hjm]
        simpa using (Chain.nil : Chain st 0 [])
      · have hjm : ¬ (j + 1 = m) := by omega
        rw [hnc, if_neg hjm]
        have h2 := ih (j + 1) (by omega)
        rwa [if_neg hi] at h2


theorem pool_offsets_nodup (storage m : Nat) : (pool_offsets storage m).Nodup := by
  refine List.Nodup.map ?_ (List.nodup_range m)
  intro a b hab
  simp only at hab
  have hpad := syn_pad_pos
  have h2 : a * SYN_VAR_PADDING = b * SYN_VAR_PADDING := by omega
  exact Nat.eq_of_mul_eq_mul_right hpad h2


theorem pool_wf_init (db : DbQ) (hv : db.valid = true)
    (hm : 1 ≤ db.locks.max_nodes) (hs : db.locks.storage ≠ 0) :
    PoolWF (init_lock_queue db).2.locks ∅
      (pool_offsets db.locks.storage db.locks.max_nodes).toFinset := by
  obtain ⟨e0, ev, e1, e2, e3, efl, est, emn, hnode⟩ := init_lock_queue_spec db hv hm
  have hcells : ∀ k, k < db.locks.max_nodes →
      ((init_lock_queue db).2.locks.nodes
        (db.locks.storage + k * SYN_VAR_PADDING)).next_cell
      = if k + 1 = db.locks.max_nodes then 0
        else db.locks.storage + (k + 1) * SYN_VAR_PADDING := by
    intro k hk
    rw [hnode k hk]
  have hrc : ∀ k, k < db.locks.max_nodes →
      ((init_lock_queue db).2.locks.nodes
        (db.locks.storage + k * SYN_VAR_PADDING)).refcount = 1 := by
    intro k hk
    rw [hnode k hk]
  refine ⟨pool_offsets db.locks.storage db.locks.max_nodes, ?_,
    pool_offsets_nodup _ _, ?_, ?_, ?_, ?_⟩
  · have hchain := chain_seg (init_lock_queue db).2.locks db.locks.storage
      db.locks.max_nodes hs hcells db.locks.max_nodes 0 (by omega)
    rw [if_neg (by omega)] at hchain
    rw [efl]
    have hzero : db.locks.storage + 0 * SYN_VAR_PADDING = db.locks.storage := by ring
    rw [hzero] at hchain
    have hlist : ((List.range db.locks.max_nodes).map
          fun d => db.locks.storage + (0 + d) * SYN_VAR_PADDING)
        = pool_offsets db.locks.storage db.locks.max_nodes := by
      apply List.map_congr_left
      intro d hd
      norm_num
    rwa [hlist] at hchain
  · intro o ho
    exact Finset.not_mem_empty o
  · exact Finset.union_empty _
  · intro o ho
    simp only [pool_offsets, List.mem_map, List.mem_range] at ho
    obtain ⟨k, hk, rfl⟩ := ho
    exact hrc k hk
  · intro o ho
    exact absurd ho (Finset.not_mem_empty o)


theorem c7_steps :
    (wg_start_read_queued c7_st0).map Prod.fst = some 64
    ∧ (wg_start_read_queued c7_st1).map Prod.fst = some 128
    ∧ c7_st2.locks.freelist = 0
    ∧ (wg_start_read_queued c7_st2).map Prod.fst = some 0
    ∧ (wg_end_read_queued c7_st2 128).map Prod.fst = some 1
    ∧ (wg_start_read_queued c7_st3).map Prod.fst = some 128 := by
  refine ⟨?_, ?_, ?_, ?_, ?_, ?_⟩ <;>
    simp [wg_start_read_queued, wg_end_read_queued, alloc_lock, alloc_lock_go,
      rd_lock_cont, end_read_step1, end_read_handoff,
      free_lock, free_lock_push, init_lock_queue, init_cells, setNode,
      c7_st3, c7_st2, c7_st1, c7_st0, c7_db0,
      compare_and_swap, fetch_and_add, fetch_and_store,
      atomic_increment, atomic_and, atomic_or, land_neg_two_eq,
      LOCKQ_READ, LOCKQ_WRITE, SYN_VAR_PADDING, Function.update_apply,
      land_eval_0_1, land_eval_0_2, land_eval_0_4,
      land_eval_1_1, land_eval_1_2, land_eval_1_4,
      land_eval_2_1, land_eval_2_2, land_eval_2_4,
      land_eval_3_1, land_eval_3_2, land_eval_3_4,
      land_eval_4_1, land_eval_4_2, land_eval_4_4]


/- ==== Claim theorems ==== -/

/-- Mutual exclusion safety of the simple-build lock (general supporting
result; it covers only the algorithm compiled when QUEUED_LOCKS is undefined).
In every interleaved execution of threads running the simple-mode acquire and
release operations from the all-idle initial state, at most one thread is
between a wg_start_write return and the paired wg_end_write call, and no
thread is in that write critical section while any thread is between a
wg_start_read return and the paired wg_end_read call. -/
theorem mutual_exclusion_simple_lock {n : Nat} (c : SimpleTS.Cfg n)
    (hr : SimpleTS.Reach (SimpleTS.init n) c) :
    SimpleTS.cnt c.tpc SimpleTS.isW ≤ 1
    ∧ (1 ≤ SimpleTS.cnt c.tpc SimpleTS.isRcs
        → SimpleTS.cnt c.tpc SimpleTS.isW = 0) :=
  SimpleTS.mutex_of_inv (SimpleTS.inv_reach hr (SimpleTS.inv_init n))


/-- Instance of the simple-build safety property at the initial configuration
of a two-thread system. -/
theorem mutual_exclusion_simple_lock_init :
    SimpleTS.cnt (SimpleTS.init 2).tpc SimpleTS.isW ≤ 1
    ∧ (1 ≤ SimpleTS.cnt (SimpleTS.init 2).tpc SimpleTS.isRcs
        → SimpleTS.cnt (SimpleTS.init 2).tpc SimpleTS.isW = 0) :=
  mutual_exclusion_simple_lock (SimpleTS.init 2) (SimpleTS.Reach.refl _)


/-- C2 counterexample: init_lock_queue does not write zero into tail,
next_writer or reader_count; on a valid one-node database carrying the
nonzero values 7, 5, 3 in those fields, they all survive initialization. -/
theorem claim_c2_counterexample :
    c2_db.valid = true ∧ 1 ≤ c2_db.locks.max_nodes
    ∧ (init_lock_queue c2_db).2.locks.tail = 7
    ∧ (init_lock_queue c2_db).2.locks.next_writer = 5
    ∧ (init_lock_queue c2_db).2.locks.reader_count = 3 := by
  refine ⟨rfl, by decide, ?_, ?_, ?_⟩ <;> decide


/-- C2 (amended): for every valid handle with max_nodes ≥ 1, init_lock_queue
returns 0, links all max_nodes arena cells into the freelist (freelist ends
up at the first cell) with refcount 1 on every cell and each next_cell holding
the offset of the following cell, the next_cell of the last cell being 0 - while
leaving tail, next_writer and reader_count untouched (they are zeroed
elsewhere, during segment creation, not by this function). -/
theorem claim_c2 (db : DbQ) (hv : db.valid = true)
    (hm : 1 ≤ db.locks.max_nodes) :
    (init_lock_queue db).1 = 0
    ∧ (init_lock_queue db).2.locks.freelist = db.locks.storage
    ∧ (∀ k, k < db.locks.max_nodes →
        ((init_lock_queue db).2.locks.nodes
            (db.locks.storage + k * SYN_VAR_PADDING)).refcount = 1
        ∧ ((init_lock_queue db).2.locks.nodes
            (db.locks.storage + k * SYN_VAR_PADDING)).next_cell
          = (if k + 1 = db.locks.max_nodes then 0
             else db.locks.storage + (k + 1) * SYN_VAR_PADDING))
    ∧ (init_lock_queue db).2.locks.tail = db.locks.tail
    ∧ (init_lock_queue db).2.locks.next_writer = db.locks.next_writer
    ∧ (init_lock_queue db).2.locks.reader_count = db.locks.reader_count := by
  obtain ⟨e0, ev, e1, e2, e3, efl, est, emn, hnode⟩ := init_lock_queue_spec db hv hm
  refine ⟨e0, efl, ?_, e1, e2, e3⟩
  intro k hk
  rw [hnode k hk]
  exact ⟨rfl, rfl⟩


/-- C2 witness: the amended claim instantiated on the concrete two-node
database of the pool scenario. -/
theorem claim_c2_witness :
    c7_db0.valid = true ∧ 1 ≤ c7_db0.locks.max_nodes
    ∧ (init_lock_queue c7_db0).1 = 0
    ∧ (init_lock_queue c7_db0).2.locks.freelist = c7_db0.locks.storage
    ∧ (init_lock_queue c7_db0).2.locks.tail = c7_db0.locks.tail := by
  have h := claim_c2 c7_db0 rfl (by decide)
  exact ⟨rfl, by decide, h.1, h.2.1, h.2.2.2.1⟩


/-- C3: simple-mode single-reader round trip from sync word 0: wg_start_read
returns the nonzero token 1 leaving the sync word at 0x02, and the subsequent
wg_end_read returns the word to 0x00. -/
theorem claim_c3 (db : DbS) (hv : db.valid = true) (h0 : db.sync_word = 0) :
    wg_start_read db = some (1, { db with sync_word := 2 })
    ∧ (1 : Int) ≠ 0
    ∧ wg_end_read { db with sync_word := 2 } 1 = (1, { db with sync_word := 0 }) := by
  refine ⟨?_, by decide, ?_⟩
  · simp [wg_start_read, hv, h0, fetch_and_add, RC_INCR, WAFLAG, land_eval_2_1]
  · simp [wg_end_read, hv, fetch_and_add, RC_INCR]


/-- C3 witness: the round trip run on the concrete handle with sync word 0. -/
theorem claim_c3_witness :
    wg_start_read ⟨true, 0⟩ = some (1, ⟨true, 2⟩)
    ∧ wg_end_read ⟨true, 2⟩ 1 = (1, ⟨true, 0⟩) := by
  have h := claim_c3 ⟨true, 0⟩ rfl rfl
  exact ⟨h.1, h.2.2⟩


/-- C4: simple-mode single-writer round trip from sync word 0: wg_start_write
returns the nonzero token 1 leaving the sync word at 0x01; wg_end_write
clears the WAFLAG bit with no validation of the prior state (shown for every
prior word value), leaving the sync word at 0x00. -/
theorem claim_c4 (db : DbS) (hv : db.valid = true) (h0 : db.sync_word = 0) :
    wg_start_write db = some (1, { db with sync_word := 1 })
    ∧ (1 : Int) ≠ 0
    ∧ (∀ s lock : Int, wg_end_write { valid := true, sync_word := s } lock
        = (1, { valid := true, sync_word := atomic_and s (-2) }))
    ∧ wg_end_write { db with sync_word := 1 } 1 = (1, { db with sync_word := 0 }) := by
  refine ⟨?_, by decide, ?_, ?_⟩
  · simp [wg_start_write, hv, h0, WAFLAG]
  · intro s lock
    simp [wg_end_write]
  · simp [wg_end_write, hv, atomic_and, land_neg_two_eq]


/-- C4 witness: the round trip run on the concrete handle with sync word 0. -/
theorem claim_c4_witness :
    wg_start_write ⟨true, 0⟩ = some (1, ⟨true, 1⟩)
    ∧ wg_end_write ⟨true, 1⟩ 1 = (1, ⟨true, 0⟩) := by
  have h := claim_c4 ⟨true, 0⟩ rfl rfl
  exact ⟨h.1, h.2.2.2⟩


/-- C5: simple-mode reader preference.  (1) On a valid handle whose fetched
sync word has WAFLAG clear, wg_start_read succeeds immediately, its only
modification being the single addition of RC_INCR.  (2) In the interleaved
semantics, the fetch_and_add step of wg_start_read changes the sync word by
exactly RC_INCR, (3) the WAFLAG test and the spin-wait steps never modify the
sync word (in particular the reader count is never decremented while
waiting), and (4) the test step succeeds as soon as WAFLAG is observed
clear. -/
theorem claim_c5 :
    (∀ db : DbS, db.valid = true → Int.land db.sync_word WAFLAG = 0 →
      wg_start_read db = some (1, { db with sync_word := db.sync_word + RC_INCR }))
    ∧ (∀ (n : Nat) (t : Fin n) (c c2 : SimpleTS.Cfg n),
        SimpleTS.Step SimpleTS.Act.readIncr t c c2 →
          c2.sync_word = c.sync_word + RC_INCR)
    ∧ (∀ (n : Nat) (t : Fin n) (c c2 : SimpleTS.Cfg n),
        SimpleTS.Step SimpleTS.Act.readCheck t c c2
          ∨ SimpleTS.Step SimpleTS.Act.readSpin t c c2 →
          c2.sync_word = c.sync_word)
    ∧ (∀ (n : Nat) (t : Fin n) (c c2 : SimpleTS.Cfg n),
        SimpleTS.Step SimpleTS.Act.readCheck t c c2 →
          Int.land c.sync_word WAFLAG = 0 → c2.tpc t = SimpleTS.Pc.rcs) := by
  refine ⟨?_, ?_, ?_, ?_⟩
  · intro db hv hb
    have hb2 : db.sync_word % 2 = 0 := by
      rw [← land_one_mod]
      simpa [WAFLAG] using hb
    have ht : Int.land (db.sync_word + 2) 1 = 0 := by
      rw [land_one_mod]
      omega
    simp [wg_start_read, hv, fetch_and_add, RC_INCR, WAFLAG, ht]
  · intro n t c c2 h
    cases h with
    | read_incr h1 => simp [fetch_and_add, RC_INCR]
  · intro n t c c2 h
    rcases h with h | h
    · cases h with
      | read_check_clear h1 h2 => rfl
      | read_check_set h1 h2 => rfl
    · cases h with
      | read_spin_clear h1 h2 => rfl
      | read_spin_set h1 h2 => rfl
  · intro n t c c2 h hb
    cases h with
    | read_check_clear h1 h2 => simp [Function.update_same]
    | read_check_set h1 h2 => exact absurd hb h2


/-- C5 witness: immediate success of wg_start_read on a concrete handle with
WAFLAG clear. -/
theorem claim_c5_witness :
    wg_start_read ⟨true, 0⟩ = some (1, ⟨true, 0 + RC_INCR⟩) :=
  claim_c5.1 ⟨true, 0⟩ rfl (by decide)


/-- C6: queued-mode last-reader handoff.  Exactly when the fetched
reader_count is 1, end_read_handoff zeroes next_writer and, if a writer w was
queued there, clears bit 0 of the state word of node w, all other nodes untouched;
when the fetched count differs from 1, only reader_count changes (by -1) and
next_writer and every node are left as they were. -/
theorem claim_c6 (lk : db_locks) :
    (lk.reader_count = 1 →
      (end_read_handoff lk).reader_count = 0
      ∧ (end_read_handoff lk).next_writer = 0
      ∧ (lk.next_writer ≠ 0 →
          ((end_read_handoff lk).nodes lk.next_writer).state
            = atomic_and (lk.nodes lk.next_writer).state (-2)
          ∧ ∀ o, o ≠ lk.next_writer →
              (end_read_handoff lk).nodes o = lk.nodes o)
      ∧ (lk.next_writer = 0 →
          ∀ o, (end_read_handoff lk).nodes o = lk.nodes o))
    ∧ (lk.reader_count ≠ 1 →
        end_read_handoff lk = { lk with reader_count := lk.reader_count - 1 }) := by
  constructor
  · intro h1
    by_cases hw : lk.next_writer = 0
    · refine ⟨?_, ?_, fun hc => absurd hw hc, fun _ o => ?_⟩ <;>
        simp [end_read_handoff, fetch_and_add, fetch_and_store, h1, hw]
    · refine ⟨?_, ?_, fun _ => ⟨?_, fun o ho => ?_⟩, fun hc => absurd hc hw⟩
      · simp [end_read_handoff, fetch_and_add, fetch_and_store, h1, hw, setNode]
      · simp [end_read_handoff, fetch_and_add, fetch_and_store, h1, hw, setNode]
      · simp [end_read_handoff, fetch_and_add, fetch_and_store, h1, hw,
          setNode_nodes]
      · simp [end_read_handoff, fetch_and_add, fetch_and_store, h1, hw,
          setNode_nodes, ho]
  · intro h1
    have harith : lk.reader_count + -1 = lk.reader_count - 1 := by ring
    simp [end_read_handoff, fetch_and_add, h1, harith]


/-- C6 witness: the handoff on a concrete state with one active reader and a
writer queued at offset 5 zeroes next_writer and clears that blocked
bit. -/
theorem claim_c6_witness :
    (end_read_handoff c6w_lk).next_writer = 0
    ∧ ((end_read_handoff c6w_lk).nodes 5).state
        = atomic_and ((c6w_lk.nodes 5).state) (-2) := by
  have h := (claim_c6 c6w_lk).1 rfl
  exact ⟨h.2.1, ((h.2.2.1 (by decide)).1)⟩


/-- C7: pool exhaustion.  alloc_lock yields token 0 exactly when it observes
an empty freelist; in the concrete sequential two-node run, two wg_start_read
calls succeed with tokens 64 and 128, a third returns 0, and after releasing
token 128 a further wg_start_read succeeds with token 128 again. -/
theorem claim_c7 :
    (∀ lk : db_locks, (alloc_lock lk).map Prod.fst = some 0 ↔ lk.freelist = 0)
    ∧ (wg_start_read_queued c7_st0).map Prod.fst = some 64
    ∧ (wg_start_read_queued c7_st1).map Prod.fst = some 128
    ∧ (wg_start_read_queued c7_st2).map Prod.fst = some 0
    ∧ (wg_end_read_queued c7_st2 128).map Prod.fst = some 1
    ∧ (wg_start_read_queued c7_st3).map Prod.fst = some 128 := by
  obtain ⟨s1, s2, s3, s4, s5, s6⟩ := c7_steps
  exact ⟨alloc_lock_zero_iff, s1, s2, s4, s5, s6⟩


/-- C8: pool conservation.  After any sequential run of alloc_lock and
free_lock calls from a freshly initialized pool in which every allocated node
is freed exactly once (ghost allocated set returns to empty), the offsets
reachable from freelist via next_cell are exactly the initial max_nodes arena
offsets, each with refcount 1. -/
theorem claim_c8 (db : DbQ) (hv : db.valid = true)
    (hm : 1 ≤ db.locks.max_nodes) (hs : db.locks.storage ≠ 0)
    (lk2 : db_locks)
    (hrun : PoolRun (init_lock_queue db).2.locks ∅ lk2 ∅) :
    ∃ L : List Nat, Chain lk2 lk2.freelist L ∧ L.Nodup
      ∧ L.toFinset
          = (pool_offsets db.locks.storage db.locks.max_nodes).toFinset
      ∧ ∀ o ∈ L, (lk2.nodes o).refcount = 1 := by
  obtain ⟨L, hchain, hnodup, hdisj, hunion, hfree, halloc⟩ :=
    pool_wf_run hrun (pool_wf_init db hv hm hs)
  refine ⟨L, hchain, hnodup, ?_, hfree⟩
  rw [← hunion, Finset.union_empty]


/-- C8 witness: the conservation statement for the empty run on the concrete
two-node pool. -/
theorem claim_c8_witness :
    ∃ L : List Nat, Chain (init_lock_queue c7_db0).2.locks
        (init_lock_queue c7_db0).2.locks.freelist L ∧ L.Nodup
      ∧ L.toFinset
          = (pool_offsets c7_db0.locks.storage c7_db0.locks.max_nodes).toFinset
      ∧ ∀ o ∈ L, ((init_lock_queue c7_db0).2.locks.nodes o).refcount = 1 :=
  claim_c8 c7_db0 rfl (by decide) (by decide) _ (PoolRun.nil _ _)


/-- C9 counterexample: on an invalid handle init_lock_queue returns -1, not 0
as the claim states. -/
theorem claim_c9_counterexample :
    c9_bad.valid = false ∧ (init_lock_queue c9_bad).1 = -1
    ∧ ((-1 : Int) ≠ 0) := by
  refine ⟨rfl, ?_, by decide⟩
  decide


/-- C9 (amended): on a handle failing dbcheck, each of the four wg operations
(in both builds) returns 0 and leaves the entire shared lock state unchanged,
while init_lock_queue also leaves the state unchanged but reports the failure
by returning -1 rather than 0. -/
theorem claim_c9 (dbq : DbQ) (hq : dbq.valid = false) (dbs : DbS)
    (hsv : dbs.valid = false) (lq : Nat) (ls : Int) :
    init_lock_queue dbq = (-1, dbq)
    ∧ wg_start_read_queued dbq = some (0, dbq)
    ∧ wg_start_write_queued dbq = some (0, dbq)
    ∧ wg_end_read_queued dbq lq = some (0, dbq)
    ∧ wg_end_write_queued dbq lq = some (0, dbq)
    ∧ wg_start_read dbs = some (0, dbs)
    ∧ wg_start_write dbs = some (0, dbs)
    ∧ wg_end_read dbs ls = (0, dbs)
    ∧ wg_end_write dbs ls = (0, dbs) := by
  refine ⟨?_, ?_, ?_, ?_, ?_, ?_, ?_, ?_, ?_⟩ <;>
    simp [init_lock_queue, wg_start_read_queued, wg_start_write_queued,
      wg_end_read_queued, wg_end_write_queued, wg_start_read, wg_start_write,
      wg_end_read, wg_end_write, hq, hsv]


/-- C9 witness: the amended behaviour on the concrete invalid handles. -/
theorem claim_c9_witness :
    init_lock_queue c9_bad = (-1, c9_bad)
    ∧ wg_start_read_queued c9_bad = some (0, c9_bad)
    ∧ wg_end_write_queued c9_bad 64 = some (0, c9_bad)
    ∧ wg_start_read c9_bads = some (0, c9_bads)
    ∧ wg_end_write c9_bads 1 = (0, c9_bads) := by
  have h := claim_c9 c9_bad rfl c9_bads rfl 64 1
  exact ⟨h.1, h.2.1, h.2.2.2.2.1, h.2.2.2.2.2.1, h.2.2.2.2.2.2.2.2⟩


/-- C10: simple-mode releases ignore the token.  For any two gint token
values, wg_end_write performs the identical update and returns the identical
result, and likewise wg_end_read; on a valid handle both return 1. -/
theorem claim_c10 (db : DbS) (t1 t2 : Int) :
    wg_end_write db t1 = wg_end_write db t2
    ∧ wg_end_read db t1 = wg_end_read db t2
    ∧ (db.valid = true →
        (wg_end_write db t1).1 = 1 ∧ (wg_end_read db t1).1 = 1) := by
  refine ⟨rfl, rfl, fun hv => ?_⟩
  constructor <;> simp [wg_end_write, wg_end_read, hv]


/-- C10 witness: token-independence of the releases at a concrete handle and
two concrete distinct tokens, one of which was never issued. -/
theorem claim_c10_witness :
    wg_end_write ⟨true, 3⟩ 0 = wg_end_write ⟨true, 3⟩ 17
    ∧ (wg_end_write ⟨true, 3⟩ 0).1 = 1
    ∧ (wg_end_read ⟨true, 3⟩ 0).1 = 1 := by
  have h := claim_c10 ⟨true, 3⟩ 0 17
  exact ⟨h.1, (h.2.2 rfl).1, (h.2.2 rfl).2⟩
